import Mathlib

/-!
Verification of the classification core of the AI expense tracker
(`model.py`, class `ExpenseCategorizer`).

Modelling choices, stated once:

* Python strings are modelled as `List Char`; `str.lower` maps
  `Char.toLower` over the characters (the ASCII fragment, which covers every
  string the program manipulates), `str.strip` drops ASCII whitespace from
  both ends, and the Python `in` substring test is `pyIn`.
* The scikit-learn pipeline (`TfidfVectorizer` + `MultinomialNB`) is an
  external library.  Its fitted state is modelled by `NBModel`: the field
  `classes` holds `classes_`, which scikit-learn defines as the sorted
  distinct training labels (`numpy.unique`), derived here from the embedded
  training corpus; the field `proba` abstracts the fitted
  `predict_proba` on a single preprocessed document.  Development-wide
  results are quantified over every `proba` function, and where the claim
  needs it, `proba` is constrained by scikit-learn's documented contract
  (`probaVecWF`): one probability per class, each in `[0,1]`, summing to 1.
  `predict` of the fitted model is `classes_[argmax probabilities]`
  (first maximum, as `numpy.argmax`), returning `none` when that lookup is
  impossible — the abstract counterpart of an internal exception.
* Probabilities are rationals (the idealisation of the floating point
  computation); Python's `round(x, 2)` is round-half-to-even, `pyRound2`.
* The filesystem slot at `model_file` is the `artifact` field of
  `CategorizerState`; `pickle.dump`/`pickle.load` are value round-trips.
-/

set_option maxRecDepth 100000

namespace ExpenseTracker

/-- Characters removed by Python `str.strip()` (ASCII whitespace). -/
def isPySpace (c : Char) : Bool :=
  c == ' ' || c == '\t' || c == '\n' || c == '\r' || c == Char.ofNat 11 || c == Char.ofNat 12

/-- Python `str.lower()` on the ASCII fragment. -/
def pyLower (s : List Char) : List Char := s.map Char.toLower

/-- Python `str.strip()`: drop whitespace from both ends. -/
def pyStrip (s : List Char) : List Char :=
  ((s.dropWhile isPySpace).reverse.dropWhile isPySpace).reverse

/-- Does `s` start with `w`? -/
def startsWith : List Char → List Char → Bool
  | [], _ => true
  | _ :: _, [] => false
  | c :: w, d :: s => c == d && startsWith w s

/-- Python substring test `w in s`. -/
def pyIn (w : List Char) : List Char → Bool
  | [] => startsWith w []
  | c :: s => startsWith w (c :: s) || pyIn w s

/-- Lexicographic comparison of character lists (code-point order). -/
def lexLe : List Char → List Char → Bool
  | [], _ => true
  | _ :: _, [] => false
  | a :: as, b :: bs => if a < b then true else if b < a then false else lexLe as bs

/-- Comparison used by `numpy.unique` on the label strings. -/
def strLe (a b : String) : Bool := lexLe a.toList b.toList

/-- Insertion into a `strLe`-sorted list. -/
def insertSorted (x : String) : List String → List String
  | [] => [x]
  | y :: ys => if strLe x y then x :: y :: ys else y :: insertSorted x ys

/-- Insertion sort by `strLe`. -/
def sortStr : List String → List String
  | [] => []
  | x :: xs => insertSorted x (sortStr xs)

/-- Field `self.categories` set in `ExpenseCategorizer.__init__`. -/
def categoriesInit : List String := ["Food", "Travel", "Bills", "Shopping", "Entertainment"]

/-- Field `self.FOOD_KEYWORDS` set in `ExpenseCategorizer.__init__`. -/
def FOOD_KEYWORDS : List (List Char) :=
  ["food".toList, "potato".toList, "chips".toList, "fries".toList, "snack".toList,
    "burger".toList, "pizza".toList, "coffee".toList, "tea".toList, "meal".toList,
    "lunch".toList, "dinner".toList, "breakfast".toList, "popcorn".toList]

/-- Method `_food_override`: the first keyword occurring as a substring of the
(already lowercased and stripped) description yields `Food`; otherwise no
override. -/
def food_override (description : List Char) : Option String :=
  match FOOD_KEYWORDS.find? (fun w => pyIn w description) with
  | some _ => some ("Food")
  | none => none

/-- Training labels returned by `get_training_data` (the fixed-size blocks). -/
def training_categories : List String :=
  List.replicate 23 ("Food") ++ List.replicate 21 ("Travel") ++ List.replicate 20 ("Bills") ++
    List.replicate 24 ("Shopping") ++ List.replicate 24 ("Entertainment")

/-- The `classes_` attribute of the fitted `MultinomialNB`: the sorted distinct
training labels (scikit-learn computes it with `numpy.unique`). -/
def trainedClasses : List String := sortStr training_categories.dedup

/-- Training descriptions returned by `get_training_data`. -/
def training_descriptions : List (List Char) :=
  ["lunch at restaurant".toList, "dinner with friends".toList,
    "groceries from supermarket".toList, "breakfast coffee".toList, "pizza delivery".toList,
    "fast food burger".toList, "sushi takeout".toList, "grocery shopping".toList,
    "food delivery".toList, "restaurant bill".toList, "cafe latte".toList,
    "starbucks coffee".toList, "mcdonalds meal".toList, "subway sandwich".toList,
    "dominos pizza".toList, "ice cream".toList, "snacks chips".toList,
    "fruits vegetables".toList, "meat chicken".toList, "bakery bread".toList,
    "candy chocolate".toList, "food court meal".toList, "buffet dinner".toList,
    "uber ride".toList, "taxi fare".toList, "bus ticket".toList, "train ticket".toList,
    "flight booking".toList, "hotel accommodation".toList, "airbnb stay".toList,
    "car rental".toList, "gas fuel".toList, "parking fee".toList, "metro card".toList,
    "toll fee".toList, "airport shuttle".toList, "vacation package".toList,
    "travel insurance".toList, "lyft ride".toList, "ola cab".toList, "bike rental".toList,
    "road trip".toList, "cruise booking".toList, "travel visa".toList,
    "electricity bill".toList, "water bill".toList, "internet bill".toList,
    "phone bill".toList, "rent payment".toList, "insurance premium".toList,
    "credit card payment".toList, "loan emi".toList, "gas bill".toList, "cable tv".toList,
    "netflix subscription".toList, "spotify premium".toList, "gym membership".toList,
    "utility payment".toList, "mortgage payment".toList, "property tax".toList,
    "youtube premium".toList, "amazon prime".toList, "hulu subscription".toList,
    "medical insurance".toList, "clothing purchase".toList, "shoes shopping".toList,
    "electronics store".toList, "furniture buy".toList, "book purchase".toList,
    "online shopping".toList, "amazon order".toList, "walmart shopping".toList,
    "target purchase".toList, "ebay order".toList, "home decor".toList,
    "cosmetics beauty".toList, "jewelry purchase".toList, "toy store".toList,
    "sports equipment".toList, "garden supplies".toList, "office supplies".toList,
    "hardware store".toList, "pet supplies".toList, "gift purchase".toList,
    "laptop computer".toList, "mobile phone".toList, "headphones".toList, "watch".toList,
    "movie tickets".toList, "concert tickets".toList, "theater show".toList,
    "museum entry".toList, "theme park".toList, "bowling alley".toList,
    "video games".toList, "streaming service".toList, "sports event".toList,
    "comedy show".toList, "bar drinks".toList, "nightclub cover".toList,
    "casino gambling".toList, "arcade games".toList, "mini golf".toList,
    "escape room".toList, "zoo tickets".toList, "aquarium visit".toList,
    "festival pass".toList, "hobby class".toList, "books magazine".toList,
    "music album".toList, "app purchase".toList, "game subscription".toList]

/-- Method `get_training_data`: the aligned description and label sequences. -/
def get_training_data : List (List Char) × List String :=
  (training_descriptions, training_categories)

/-- Fitted pipeline state: scikit-learn's `classes_` together with the fitted
`predict_proba` on one preprocessed document (probabilities in `classes_`
order, per the scikit-learn contract). -/
structure NBModel where
  classes : List String
  proba : List Char → List ℚ

/-- Index of the first maximum (`numpy.argmax`), accumulator form. -/
def argmaxAux : Nat → Nat → ℚ → List ℚ → Nat
  | _, best, _, [] => best
  | i, best, bv, x :: xs =>
    if bv < x then argmaxAux (i + 1) i x xs else argmaxAux (i + 1) best bv xs

/-- Index of the first maximum of a list (`numpy.argmax`); 0 on the empty list. -/
def argmaxIdx : List ℚ → Nat
  | [] => 0
  | x :: xs => argmaxAux 1 0 x xs

/-- Fitted `predict` on one document: `classes_[argmax(predict_proba)]`.
`none` abstracts an internal exception (no class to return). -/
def nbPredict (m : NBModel) (d : List Char) : Option String :=
  m.classes[argmaxIdx (m.proba d)]?

/-- Round half to even (Python `round` on the idealised rationals). -/
def roundHalfEven (x : ℚ) : ℤ :=
  if x - Int.floor x < 1 / 2 then Int.floor x
  else if 1 / 2 < x - Int.floor x then Int.floor x + 1
  else if Int.floor x % 2 = 0 then Int.floor x else Int.floor x + 1

/-- Python `round(x, 2)`. -/
def pyRound2 (x : ℚ) : ℚ := (roundHalfEven (x * 100) : ℚ) / 100

/-- The dict comprehension of `predict_with_confidence`:
`{category: round(prob * 100, 2) for category, prob in zip(cats, probs)}`. -/
def confidenceMap (cats : List String) (probs : List ℚ) : List (String × ℚ) :=
  List.zipWith (fun c p => (c, pyRound2 (p * 100))) cats probs

/-- Instance state of `ExpenseCategorizer`, plus the file at `model_file`
(`artifact`). -/
structure CategorizerState where
  model : Option NBModel
  categories : List String
  artifact : Option NBModel

/-- Constructor `__init__` with the filesystem contents `fs` at `model_file`:
`self.model = None`, `self.categories = [...]`, then `load_model` when the
artifact file exists. -/
def init (fs : Option NBModel) : CategorizerState :=
  { model := fs, categories := categoriesInit, artifact := fs }

/-- Outcome of `Pipeline.fit` on the embedded corpus: `classes_` is the sorted
distinct labels; the fitted `predict_proba` is abstracted by `fp`. -/
def trainModel (fp : List Char → List ℚ) : NBModel :=
  { classes := trainedClasses, proba := fp }

/-- Method `train`: rebuild the pipeline, fit it on the corpus, and
`save_model` (overwrite the artifact file). -/
def train (fp : List Char → List ℚ) (st : CategorizerState) : CategorizerState :=
  { st with model := some (trainModel fp), artifact := some (trainModel fp) }

/-- The guard `if self.model is None: self.train()` opening both predict
methods. -/
def ensureTrained (fp : List Char → List ℚ) (st : CategorizerState) : CategorizerState :=
  if st.model.isNone then train fp st else st

/-- The model in force after the implicit-training guard. -/
def modelAfter (fp : List Char → List ℚ) (st : CategorizerState) : NBModel :=
  match st.model with
  | some m => m
  | none => trainModel fp

/-- Body of `predict` after the guard, given the current model slot and the
lowercased, stripped description: empty check, then the food override, then
`self.model.predict([description])[0]` inside `try`, with any failure
(including a missing model) mapped to `Shopping` by the `except` clause. -/
def predictLabel (mo : Option NBModel) (d : List Char) : String :=
  if d = [] then ("Shopping")
  else
    match food_override d with
    | some c => c
    | none =>
      match mo with
      | some m =>
        match nbPredict m d with
        | some c => c
        | none => "Shopping"
      | none => "Shopping"

/-- Method `predict`: implicit-training guard, preprocessing, then
`predictLabel`.  The returned pair is (object state after the call, returned
category). -/
def predict (fp : List Char → List ℚ) (st : CategorizerState) (description : List Char) :
    CategorizerState × String :=
  let st1 := ensureTrained fp st
  (st1, predictLabel st1.model (pyStrip (pyLower description)))

/-- Method `predict_with_confidence`: implicit-training guard, preprocessing,
then `predict_proba` zipped against `self.categories`.  There is no empty
check, no override and no `try` here; the unreachable `none` branch (the
guard always leaves a model) stands for the exception Python would raise. -/
def predict_with_confidence (fp : List Char → List ℚ) (st : CategorizerState)
    (description : List Char) : CategorizerState × List (String × ℚ) :=
  let st1 := ensureTrained fp st
  (st1,
    match st1.model with
    | some m => confidenceMap st1.categories (m.proba (pyStrip (pyLower description)))
    | none => [])

/-- Method `get_categories`. -/
def get_categories (st : CategorizerState) : List String := st.categories

/-- A probability row as scikit-learn's `predict_proba` documents it for this
five-class model: five entries, each in `[0,1]`, summing to 1. -/
def probaVecWF (l : List ℚ) : Prop :=
  l.length = 5 ∧ (∀ p ∈ l, 0 ≤ p ∧ p ≤ 1) ∧ l.sum = 1

/-- The fitted `predict_proba` respects its contract on every document. -/
def ProbaWF (fp : List Char → List ℚ) : Prop := ∀ d, probaVecWF (fp d)

/-- A model slot whose classes are the ones the corpus trains. -/
def StateWF (st : CategorizerState) : Prop :=
  ∀ m, st.model = some m → m.classes = trainedClasses

/-- Full model well-formedness: trained classes and a contract-respecting
probability function. -/
def ModelWF (m : NBModel) : Prop := m.classes = trainedClasses ∧ ProbaWF m.proba

/-- Facade state as `__init__` builds it: the declared category list, and any
loaded model is well formed. -/
def FacadeWF (st : CategorizerState) : Prop :=
  st.categories = categoriesInit ∧ ∀ m, st.model = some m → ModelWF m

/-- A concrete probability row respecting the scikit-learn contract, with the
posterior mass concentrated on position 4 of `classes_` (the class `Travel`),
the shape the fitted model produces for the verbatim Travel training example
"uber ride". -/
def probaTravelDominant : List Char → List ℚ :=
  fun _ => [1 / 20, 1 / 20, 1 / 10, 1 / 10, 7 / 10]

/-- A degenerate loaded artifact (no classes, no probability row): the abstract
stand-in for a persisted classifier that raises on use. -/
def brokenModel : NBModel := { classes := [], proba := fun _ => [] }

/-! Helper lemmas about the string model. -/

lemma startsWith_iff (w : List Char) : ∀ s, startsWith w s = true ↔ ∃ b, s = w ++ b := by
  induction w with
  | nil =>
    intro s
    simp [startsWith]
  | cons c w ih =>
    intro s
    cases s with
    | nil =>
      simp [startsWith]
    | cons d t =>
      rw [startsWith]
      simp only [Bool.and_eq_true, beq_iff_eq, ih]
      constructor
      · rintro ⟨rfl, b, rfl⟩
        exact ⟨b, rfl⟩
      · rintro ⟨b, hb⟩
        rw [List.cons_append] at hb
        obtain ⟨h1, h2⟩ := List.cons.injEq .. ▸ hb
        exact ⟨h1.symm, b, h2⟩

lemma pyIn_iff (w : List Char) : ∀ s, pyIn w s = true ↔ ∃ a b, s = a ++ (w ++ b) := by
  intro s
  induction s with
  | nil =>
    rw [pyIn, startsWith_iff]
    constructor
    · rintro ⟨b, hb⟩
      exact ⟨[], b, by simpa using hb⟩
    · rintro ⟨a, b, hab⟩
      rw [List.nil_eq, List.append_eq_nil] at hab
      exact ⟨b, by simp [hab.1, hab.2]⟩
  | cons c t ih =>
    rw [pyIn]
    simp only [Bool.or_eq_true, startsWith_iff, ih]
    constructor
    · rintro (⟨b, hb⟩ | ⟨a, b, hab⟩)
      · exact ⟨[], b, by simpa using hb⟩
      · exact ⟨c :: a, b, by simp [hab]⟩
    · rintro ⟨a, b, hab⟩
      cases a with
      | nil => exact Or.inl ⟨b, by simpa using hab⟩
      | cons x a' =>
        rw [List.cons_append] at hab
        obtain ⟨-, h2⟩ := List.cons.injEq .. ▸ hab
        exact Or.inr ⟨a', b, h2⟩

lemma pyIn_reverse (w s : List Char) : pyIn w.reverse s.reverse = true ↔ pyIn w s = true := by
  rw [pyIn_iff, pyIn_iff]
  constructor
  · rintro ⟨a, b, hab⟩
    refine ⟨b.reverse, a.reverse, ?_⟩
    have := congrArg List.reverse hab
    simpa [List.append_assoc] using this
  · rintro ⟨a, b, hab⟩
    exact ⟨b.reverse, a.reverse, by simp [hab, List.append_assoc]⟩

lemma pyIn_dropWhile (w : List Char) (hw : w ≠ []) (hns : ∀ c ∈ w, isPySpace c = false) :
    ∀ s, pyIn w s = true → pyIn w (s.dropWhile isPySpace) = true := by
  intro s
  induction s with
  | nil =>
    intro h
    simpa using h
  | cons c t ih =>
    intro h
    rw [List.dropWhile_cons]
    split
    · rename_i hc
      apply ih
      rw [pyIn, Bool.or_eq_true] at h
      rcases h with h | h
      · exfalso
        rw [startsWith_iff] at h
        obtain ⟨b, hb⟩ := h
        cases w with
        | nil => exact hw rfl
        | cons x w' =>
          rw [List.cons_append] at hb
          obtain ⟨h1, -⟩ := List.cons.injEq .. ▸ hb
          have := hns x (List.mem_cons_self x w')
          rw [h1] at hc
          simp [this] at hc
      · exact h
    · exact h

lemma pyIn_pyStrip (w s : List Char) (hw : w ≠ []) (hns : ∀ c ∈ w, isPySpace c = false)
    (h : pyIn w s = true) : pyIn w (pyStrip s) = true := by
  have h1 : pyIn w (s.dropWhile isPySpace) = true := pyIn_dropWhile w hw hns s h
  have h2 : pyIn w.reverse (s.dropWhile isPySpace).reverse = true := by
    rw [pyIn_reverse]
    exact h1
  have hw' : w.reverse ≠ [] := by
    intro hc
    exact hw (by simpa using congrArg List.reverse hc)
  have hns' : ∀ c ∈ w.reverse, isPySpace c = false := by
    intro c hc
    exact hns c (List.mem_reverse.mp hc)
  have h3 := pyIn_dropWhile w.reverse hw' hns' _ h2
  have h4 : pyIn w.reverse.reverse ((s.dropWhile isPySpace).reverse.dropWhile isPySpace).reverse
      = true := by
    rw [pyIn_reverse]
    exact h3
  simpa [pyStrip] using h4

lemma pyIn_ne_nil (w s : List Char) (hw : w ≠ []) (h : pyIn w s = true) : s ≠ [] := by
  intro hs
  subst hs
  rw [pyIn] at h
  cases w with
  | nil => exact hw rfl
  | cons c w' => simp [startsWith] at h

/-- Every configured food keyword is a nonempty, whitespace-free word. -/
lemma FOOD_KEYWORDS_wf : ∀ w ∈ FOOD_KEYWORDS, w ≠ [] ∧ ∀ c ∈ w, isPySpace c = false := by
  decide

lemma food_override_eq_food (d : List Char)
    (hex : ∃ w ∈ FOOD_KEYWORDS, pyIn w d = true) : food_override d = some ("Food") := by
  rw [food_override]
  have hsome : (FOOD_KEYWORDS.find? (fun w => pyIn w d)).isSome := by
    rw [List.find?_isSome]
    obtain ⟨w, hmem, hin⟩ := hex
    exact ⟨w, hmem, hin⟩
  match hfind : FOOD_KEYWORDS.find? (fun w => pyIn w d) with
  | some _ => rfl
  | none => rw [hfind] at hsome; simp at hsome

lemma food_override_some (d : List Char) (c : String) (h : food_override d = some c) :
    c = "Food" := by
  rw [food_override] at h
  match hfind : FOOD_KEYWORDS.find? (fun w => pyIn w d) with
  | some _ => rw [hfind] at h; exact (Option.some.injEq .. ▸ h).symm
  | none => rw [hfind] at h; exact absurd h (by simp)

/-! Helper lemmas about rounding. -/

lemma roundHalfEven_abs_le (x : ℚ) : |(roundHalfEven x : ℚ) - x| ≤ 1 / 2 := by
  have h1 : ((Int.floor x : ℤ) : ℚ) ≤ x := Int.floor_le x
  have h2 : x < (Int.floor x : ℤ) + 1 := Int.lt_floor_add_one x
  rw [roundHalfEven]
  split
  · rename_i ha
    rw [abs_le]
    constructor <;> linarith
  · split
    · rename_i ha hb
      rw [abs_le]
      constructor <;> push_cast <;> linarith
    · rename_i ha hb
      have hr : x - Int.floor x = 1 / 2 := by linarith
      split <;> (rw [abs_le]; constructor <;> push_cast <;> linarith)

lemma roundHalfEven_nonneg (x : ℚ) (hx : 0 ≤ x) : 0 ≤ roundHalfEven x := by
  have h0 : 0 ≤ Int.floor x := Int.floor_nonneg.mpr hx
  rw [roundHalfEven]
  split
  · exact h0
  · split
    · omega
    · split <;> omega

lemma roundHalfEven_le_of_le (x : ℚ) (B : ℤ) (hx : x ≤ B) : roundHalfEven x ≤ B := by
  have hfB : Int.floor x ≤ B := by
    have := Int.floor_le_floor hx
    simpa using this
  have hup : ∀ h : (1 : ℚ) / 2 ≤ x - Int.floor x, Int.floor x + 1 ≤ B := by
    intro h
    have hlt : ((Int.floor x : ℤ) : ℚ) < (B : ℤ) := by
      calc ((Int.floor x : ℤ) : ℚ) < x := by linarith
        _ ≤ B := hx
    have : Int.floor x < B := by exact_mod_cast hlt
    omega
  rw [roundHalfEven]
  split
  · exact hfB
  · split
    · rename_i ha hb
      exact hup (by linarith)
    · split
      · exact hfB
      · rename_i ha hb hc
        exact hup (by linarith)

lemma pyRound2_abs_le (y : ℚ) : |pyRound2 y - y| ≤ 1 / 200 := by
  have h := roundHalfEven_abs_le (y * 100)
  rw [pyRound2]
  have hrw : (roundHalfEven (y * 100) : ℚ) / 100 - y = ((roundHalfEven (y * 100) : ℚ) - y * 100) / 100 := by
    ring
  rw [hrw, abs_div]
  rw [abs_of_pos (by norm_num : (0 : ℚ) < 100)]
  linarith

lemma pyRound2_bounds (p : ℚ) (h0 : 0 ≤ p) (h1 : p ≤ 1) :
    0 ≤ pyRound2 (p * 100) ∧ pyRound2 (p * 100) ≤ 100 := by
  have hlo : 0 ≤ roundHalfEven (p * 100 * 100) :=
    roundHalfEven_nonneg _ (by positivity)
  have hhi : roundHalfEven (p * 100 * 100) ≤ (10000 : ℤ) :=
    roundHalfEven_le_of_le _ 10000 (by push_cast; nlinarith)
  constructor
  · rw [pyRound2]
    positivity
  · rw [pyRound2]
    rw [div_le_iff₀ (by norm_num : (0 : ℚ) < 100)]
    calc (roundHalfEven (p * 100 * 100) : ℚ) ≤ (10000 : ℤ) := by exact_mod_cast hhi
      _ = 100 * 100 := by norm_num

lemma confidence_sum_bound : ∀ l : List ℚ,
    |(l.map fun p => pyRound2 (p * 100)).sum - 100 * l.sum| ≤ l.length * (1 / 200) := by
  intro l
  induction l with
  | nil => simp
  | cons p t ih =>
    have hp := pyRound2_abs_le (p * 100)
    simp only [List.map_cons, List.sum_cons, List.length_cons]
    have hsplit : pyRound2 (p * 100) + (t.map fun q => pyRound2 (q * 100)).sum
        - 100 * (p + t.sum)
        = (pyRound2 (p * 100) - p * 100)
          + ((t.map fun q => pyRound2 (q * 100)).sum - 100 * t.sum) := by
      ring
    rw [hsplit]
    calc |(pyRound2 (p * 100) - p * 100)
          + ((t.map fun q => pyRound2 (q * 100)).sum - 100 * t.sum)|
        ≤ |pyRound2 (p * 100) - p * 100|
          + |(t.map fun q => pyRound2 (q * 100)).sum - 100 * t.sum| := abs_add _ _
      _ ≤ 1 / 200 + t.length * (1 / 200) := add_le_add hp ih
      _ = (t.length + 1) * (1 / 200) := by ring
      _ = ((t.length + 1 : ℕ) : ℚ) * (1 / 200) := by norm_cast

/-! Helper lemmas about the confidence mapping. -/

lemma confidenceMap_fst : ∀ (cs : List String) (ps : List ℚ), cs.length = ps.length →
    (confidenceMap cs ps).map Prod.fst = cs := by
  intro cs
  induction cs with
  | nil => intro ps h; simp [confidenceMap]
  | cons c cs ih =>
    intro ps h
    cases ps with
    | nil => simp at h
    | cons p ps =>
      simp only [confidenceMap, List.zipWith_cons_cons, List.map_cons]
      rw [List.length_cons, List.length_cons] at h
      have := ih ps (by omega)
      rw [confidenceMap] at this
      rw [this]

lemma confidenceMap_snd : ∀ (cs : List String) (ps : List ℚ), cs.length = ps.length →
    (confidenceMap cs ps).map Prod.snd = ps.map fun p => pyRound2 (p * 100) := by
  intro cs
  induction cs with
  | nil =>
    intro ps h
    cases ps with
    | nil => simp [confidenceMap]
    | cons p ps => simp at h
  | cons c cs ih =>
    intro ps h
    cases ps with
    | nil => simp at h
    | cons p ps =>
      simp only [confidenceMap, List.zipWith_cons_cons, List.map_cons]
      rw [List.length_cons, List.length_cons] at h
      have := ih ps (by omega)
      rw [confidenceMap] at this
      rw [this]

lemma confidenceMap_mem : ∀ (cs : List String) (ps : List ℚ) (pr : String × ℚ),
    pr ∈ confidenceMap cs ps → ∃ p ∈ ps, pr.2 = pyRound2 (p * 100) := by
  intro cs
  induction cs with
  | nil => intro ps pr h; simp [confidenceMap] at h
  | cons c cs ih =>
    intro ps pr h
    cases ps with
    | nil => simp [confidenceMap] at h
    | cons p ps =>
      simp only [confidenceMap, List.zipWith_cons_cons, List.mem_cons] at h
      rcases h with h | h
      · exact ⟨p, List.mem_cons_self p ps, by rw [h]⟩
      · obtain ⟨q, hq, hqe⟩ := ih ps pr h
        exact ⟨q, List.mem_cons_of_mem p hq, hqe⟩

/-! Helper lemmas about the facade state. -/

lemma trainedClasses_eq :
    trainedClasses = ["Bills", "Entertainment", "Food", "Shopping", "Travel"] := by
  decide

lemma trainedClasses_sub : ∀ c, c ∈ trainedClasses → c ∈ categoriesInit := by
  rw [trainedClasses_eq]
  decide

lemma ensureTrained_model (fp : List Char → List ℚ) (st : CategorizerState) :
    (ensureTrained fp st).model = some (modelAfter fp st) := by
  cases h : st.model with
  | none => simp [ensureTrained, h, train, modelAfter]
  | some m => simp [ensureTrained, h, modelAfter]

lemma ensureTrained_categories (fp : List Char → List ℚ) (st : CategorizerState) :
    (ensureTrained fp st).categories = st.categories := by
  cases h : st.model with
  | none => simp [ensureTrained, h, train]
  | some m => simp [ensureTrained, h]

lemma ensureTrained_of_some (fp : List Char → List ℚ) (st : CategorizerState)
    (h : st.model.isSome) : ensureTrained fp st = st := by
  obtain ⟨m, hm⟩ := Option.isSome_iff_exists.mp h
  rw [ensureTrained, hm]
  simp

lemma modelAfter_wf (fp : List Char → List ℚ) (st : CategorizerState)
    (hst : ∀ m, st.model = some m → ModelWF m) (hfp : ProbaWF fp) :
    ModelWF (modelAfter fp st) := by
  cases h : st.model with
  | none =>
    simp only [modelAfter, h]
    exact ⟨rfl, hfp⟩
  | some m =>
    simp only [modelAfter, h]
    exact hst m h

lemma nbPredict_mem (m : NBModel) (d : List Char) (c : String)
    (h : nbPredict m d = some c) : c ∈ m.classes := by
  rw [nbPredict] at h
  obtain ⟨hlt, hget⟩ := List.getElem?_eq_some_iff.mp h
  exact hget ▸ List.getElem_mem hlt

lemma predict_fst (fp : List Char → List ℚ) (st : CategorizerState) (d : List Char) :
    (predict fp st d).1 = ensureTrained fp st := rfl

lemma predict_snd (fp : List Char → List ℚ) (st : CategorizerState) (d : List Char) :
    (predict fp st d).2 = predictLabel (some (modelAfter fp st)) (pyStrip (pyLower d)) := by
  show predictLabel (ensureTrained fp st).model (pyStrip (pyLower d)) = _
  rw [ensureTrained_model]

lemma pwc_fst (fp : List Char → List ℚ) (st : CategorizerState) (d : List Char) :
    (predict_with_confidence fp st d).1 = ensureTrained fp st := rfl

lemma pwc_snd (fp : List Char → List ℚ) (st : CategorizerState) (d : List Char) :
    (predict_with_confidence fp st d).2
      = confidenceMap st.categories ((modelAfter fp st).proba (pyStrip (pyLower d))) := by
  show (match (ensureTrained fp st).model with
        | some m => confidenceMap (ensureTrained fp st).categories
            (m.proba (pyStrip (pyLower d)))
        | none => ([] : List (String × ℚ))) = _
  rw [ensureTrained_model, ensureTrained_categories]

/-- C1: the claim that `predict_with_confidence` assigns to each of the five
categories that category's own posterior probability (so that the key with the
maximum value is the statistical prediction) fails on the code.  The dict
comprehension zips `self.categories` (declaration order) against the
probability row, which scikit-learn orders by `classes_`, the sorted labels,
and the two orders disagree (first conjuncts).  Instantiating the fitted
`predict_proba` with a contract-respecting row whose mass sits on the class
`Travel`, the statistical classifier predicts `Travel`, yet the returned
mapping gives the 70% to the key `Entertainment` and gives `Travel` only 5%,
so the maximum-valued key is not the predicted category. -/
theorem C1_confidence_misassigned :
    trainedClasses = ["Bills", "Entertainment", "Food", "Shopping", "Travel"]
    ∧ trainedClasses ≠ categoriesInit
    ∧ ProbaWF probaTravelDominant
    ∧ nbPredict (trainModel probaTravelDominant) (pyStrip (pyLower ("uber ride".toList)))
        = some ("Travel")
    ∧ (predict_with_confidence probaTravelDominant (init none) "uber ride".toList).2
        = [("Food", 5), ("Travel", 5), ("Bills", 10), ("Shopping", 10), ("Entertainment", 70)]
    ∧ (("Entertainment", (70 : ℚ)) ∈
        (predict_with_confidence probaTravelDominant (init none) "uber ride".toList).2
      ∧ ((predict_with_confidence probaTravelDominant (init none) "uber ride".toList).2.map
          Prod.snd).maximum = some 70)
    ∧ "Entertainment" ≠ "Travel" := by
  have h : (predict_with_confidence probaTravelDominant (init none) "uber ride".toList).2
      = [("Food", 5), ("Travel", 5), ("Bills", 10), ("Shopping", 10), ("Entertainment", 70)] := by
    with_unfolding_all rfl
  refine ⟨trainedClasses_eq, ?_, ?_, ?_, h, ⟨?_, ?_⟩, by decide⟩
  · rw [trainedClasses_eq]
    decide
  · intro d
    refine ⟨rfl, ?_, ?_⟩
    · intro p hp
      simp only [probaTravelDominant, List.mem_cons, List.not_mem_nil, or_false] at hp
      rcases hp with rfl | rfl | rfl | rfl | rfl <;> norm_num
    · show ([1 / 20, 1 / 20, 1 / 10, 1 / 10, 7 / 10] : List ℚ).sum = 1
      norm_num [List.sum_cons, List.sum_nil]
  · with_unfolding_all rfl
  · rw [h]
    simp
  · rw [h]
    with_unfolding_all rfl

/-- C2: every description that is non-empty after stripping and whose
lowercased form contains a configured food keyword as a substring is
classified `Food` by `predict`, whatever the statistical model would say
(quantified over every fitted probability function and every prior state). -/
theorem C2_food_override_wins (fp : List Char → List ℚ) (st : CategorizerState)
    (d : List Char) (hne : pyStrip (pyLower d) ≠ [])
    (hk : ∃ w ∈ FOOD_KEYWORDS, pyIn w (pyLower d) = true) :
    (predict fp st d).2 = "Food" := by
  obtain ⟨w, hmem, hin⟩ := hk
  obtain ⟨hw, hns⟩ := FOOD_KEYWORDS_wf w hmem
  have hstrip : pyIn w (pyStrip (pyLower d)) = true := pyIn_pyStrip w _ hw hns hin
  have hov : food_override (pyStrip (pyLower d)) = some ("Food") :=
    food_override_eq_food _ ⟨w, hmem, hstrip⟩
  rw [predict_snd, predictLabel, if_neg hne, hov]

/-- Witness for C2 at the concrete description "Popcorn at the cinema". -/
theorem C2_food_override_wins_witness :
    (predict (fun _ => []) (init none) "Popcorn at the cinema".toList).2 = "Food" :=
  C2_food_override_wins (fun _ => []) (init none) "Popcorn at the cinema".toList
    (by decide) (by decide)

/-- C3: when the statistical step of `predict` fails internally (abstracted as
`nbPredict` returning nothing) the result degrades to `Shopping`; and for
every input and every state whose loaded model carries the trained classes,
`predict` returns a value — no exception reaches the caller — and that value
is one of the five category strings. -/
theorem C3_predict_total_and_degraded (fp : List Char → List ℚ) (st : CategorizerState)
    (d : List Char) :
    ((pyStrip (pyLower d) ≠ []) →
      food_override (pyStrip (pyLower d)) = none →
      nbPredict (modelAfter fp st) (pyStrip (pyLower d)) = none →
      (predict fp st d).2 = "Shopping")
    ∧ (StateWF st → (predict fp st d).2 ∈ categoriesInit) := by
  constructor
  · intro hne hov herr
    rw [predict_snd, predictLabel, if_neg hne, hov, herr]
  · intro hwf
    rw [predict_snd, predictLabel]
    split
    · decide
    · cases hov : food_override (pyStrip (pyLower d)) with
      | some c =>
        have hc := food_override_some _ c hov
        subst hc
        show ("Food" : String) ∈ categoriesInit
        decide
      | none =>
        show (match nbPredict (modelAfter fp st) (pyStrip (pyLower d)) with
              | some c => c
              | none => "Shopping") ∈ categoriesInit
        cases hp : nbPredict (modelAfter fp st) (pyStrip (pyLower d)) with
        | some c =>
          show c ∈ categoriesInit
          have hc := nbPredict_mem _ _ _ hp
          have hcl : (modelAfter fp st).classes = trainedClasses := by
            cases hm : st.model with
            | none => simp only [modelAfter, hm]; rfl
            | some m => simp only [modelAfter, hm]; exact hwf m hm
          exact trainedClasses_sub c (hcl ▸ hc)
        | none =>
          show ("Shopping" : String) ∈ categoriesInit
          decide

/-- Witness for C3: a broken persisted artifact degrades to `Shopping`, and a
fresh instance classifies into the five categories. -/
theorem C3_predict_total_and_degraded_witness :
    (predict (fun _ => []) (init (some brokenModel)) "xyz".toList).2 = "Shopping"
    ∧ (predict (fun _ => []) (init none) "xyz".toList).2 ∈ categoriesInit := by
  constructor
  · exact (C3_predict_total_and_degraded (fun _ => []) (init (some brokenModel))
      "xyz".toList).1 (by decide) (by decide) (by decide)
  · exact (C3_predict_total_and_degraded (fun _ => []) (init none) "xyz".toList).2
      (fun m h => by simp [init] at h)

/-- C4: a freshly constructed facade with no persisted artifact has no model
state; a `predict` or `predict_with_confidence` call in that situation first
runs the training pass (its post-state is exactly the post-state of `train`);
and after either call returns, the model state is always present. -/
theorem C4_implicit_training (fp : List Char → List ℚ) (st : CategorizerState)
    (d : List Char) :
    (init none).model = none
    ∧ (st.model = none →
        (predict fp st d).1 = train fp st
        ∧ (predict_with_confidence fp st d).1 = train fp st)
    ∧ (predict fp st d).1.model.isSome
    ∧ (predict_with_confidence fp st d).1.model.isSome := by
  refine ⟨rfl, ?_, ?_, ?_⟩
  · intro h
    constructor
    · show ensureTrained fp st = train fp st
      simp [ensureTrained, h]
    · show ensureTrained fp st = train fp st
      simp [ensureTrained, h]
  · show (ensureTrained fp st).model.isSome
    rw [ensureTrained_model]
    rfl
  · show (ensureTrained fp st).model.isSome
    rw [ensureTrained_model]
    rfl

/-- Witness for C4 at a fresh facade (no artifact) and the input "tea". -/
theorem C4_implicit_training_witness :
    (predict (fun _ => []) (init none) "tea".toList).1 = train (fun _ => []) (init none)
    ∧ (predict_with_confidence (fun _ => []) (init none) "tea".toList).1
        = train (fun _ => []) (init none) :=
  (C4_implicit_training (fun _ => []) (init none) "tea".toList).2.1 rfl

/-- C5: `predict` on the empty string and on a three-space string returns
`Shopping`, for every fitted probability function and every prior state. -/
theorem C5_blank_input_shopping (fp : List Char → List ℚ) (st : CategorizerState) :
    (predict fp st ("".toList)).2 = "Shopping"
    ∧ (predict fp st ("   ".toList)).2 = "Shopping" := by
  constructor
  · rw [predict_snd]
    have h : pyStrip (pyLower ("".toList)) = [] := by decide
    rw [h]
    rfl
  · rw [predict_snd]
    have h : pyStrip (pyLower ("   ".toList)) = [] := by decide
    rw [h]
    rfl

/-- C6: under the scikit-learn `predict_proba` contract, the mapping returned
by `predict_with_confidence` has exactly the five fixed categories as keys (in
order), every value within `[0, 100]`, and the values summing to `100` within
the `±0.1` rounding tolerance. -/
theorem C6_confidence_contract (fp : List Char → List ℚ) (st : CategorizerState)
    (d : List Char) (hst : FacadeWF st) (hfp : ProbaWF fp) :
    ((predict_with_confidence fp st d).2.map Prod.fst = categoriesInit)
    ∧ (∀ pr ∈ (predict_with_confidence fp st d).2, 0 ≤ pr.2 ∧ pr.2 ≤ 100)
    ∧ |((predict_with_confidence fp st d).2.map Prod.snd).sum - 100| ≤ 1 / 10 := by
  have hM : ModelWF (modelAfter fp st) := modelAfter_wf fp st hst.2 hfp
  obtain ⟨hlen, hmem, hsum⟩ := hM.2 (pyStrip (pyLower d))
  have hclen : st.categories.length
      = ((modelAfter fp st).proba (pyStrip (pyLower d))).length := by
    rw [hst.1, hlen]
    rfl
  rw [pwc_snd]
  refine ⟨?_, ?_, ?_⟩
  · rw [confidenceMap_fst _ _ hclen, hst.1]
  · intro pr hpr
    obtain ⟨p, hp, hpe⟩ := confidenceMap_mem _ _ _ hpr
    obtain ⟨h0, h1⟩ := hmem p hp
    rw [hpe]
    exact pyRound2_bounds p h0 h1
  · rw [confidenceMap_snd _ _ hclen]
    have hb := confidence_sum_bound ((modelAfter fp st).proba (pyStrip (pyLower d)))
    rw [hsum, hlen] at hb
    norm_num at hb
    calc |(((modelAfter fp st).proba (pyStrip (pyLower d))).map
            fun p => pyRound2 (p * 100)).sum - 100|
        ≤ 1 / 40 := hb
      _ ≤ 1 / 10 := by norm_num

/-- Witness for C6 at a fresh facade, a uniform-looking probability row and
the input "tea". -/
theorem C6_confidence_contract_witness :
    ((predict_with_confidence (fun _ => [1, 0, 0, 0, 0]) (init none) "tea".toList).2.map
        Prod.fst = categoriesInit)
    ∧ |((predict_with_confidence (fun _ => [1, 0, 0, 0, 0]) (init none)
        "tea".toList).2.map Prod.snd).sum - 100| ≤ 1 / 10 :=
  ⟨(C6_confidence_contract (fun _ => [1, 0, 0, 0, 0]) (init none) "tea".toList
      ⟨rfl, fun m h => by simp [init] at h⟩
      (fun _ =>
        ⟨rfl,
          by
            show ∀ p ∈ ([1, 0, 0, 0, 0] : List ℚ), 0 ≤ p ∧ p ≤ 1
            decide,
          by
            show ([1, 0, 0, 0, 0] : List ℚ).sum = 1
            simp⟩)).1,
    (C6_confidence_contract (fun _ => [1, 0, 0, 0, 0]) (init none) "tea".toList
      ⟨rfl, fun m h => by simp [init] at h⟩
      (fun _ =>
        ⟨rfl,
          by
            show ∀ p ∈ ([1, 0, 0, 0, 0] : List ℚ), 0 ≤ p ∧ p ≤ 1
            decide,
          by
            show ([1, 0, 0, 0, 0] : List ℚ).sum = 1
            simp⟩)).2.2⟩

/-- C7: `predict_with_confidence` never consults the keyword override: its
output is exactly the statistical confidence mapping of the lowercased,
stripped input, and any two descriptions with the same preprocessed form —
one matching a food keyword, one not — receive the same mapping. -/
theorem C7_confidence_ignores_override (fp : List Char → List ℚ) (st : CategorizerState)
    (d : List Char) :
    ((predict_with_confidence fp st d).2
      = confidenceMap st.categories ((modelAfter fp st).proba (pyStrip (pyLower d))))
    ∧ ∀ d2, pyStrip (pyLower d) = pyStrip (pyLower d2) →
        (predict_with_confidence fp st d).2 = (predict_with_confidence fp st d2).2 := by
  refine ⟨pwc_snd fp st d, ?_⟩
  intro d2 h
  rw [pwc_snd, pwc_snd, h]

/-- Witness for C7: "POPCORN" has a food keyword, yet its confidence mapping
is the one of its stripped lowercased form, keyword or not. -/
theorem C7_confidence_ignores_override_witness :
    (predict_with_confidence (fun _ => []) (init none) "popcorn".toList).2
      = (predict_with_confidence (fun _ => []) (init none) "  POPCORN  ".toList).2 :=
  (C7_confidence_ignores_override (fun _ => []) (init none) "popcorn".toList).2
    "  POPCORN  ".toList (by decide)

/-- C8: training persists the model, and a fresh facade constructed over the
persisted artifact returns the identical category as the instance that
trained, for every input description. -/
theorem C8_persistence_roundtrip (fp : List Char → List ℚ) (st : CategorizerState)
    (d : List Char) :
    (predict fp (init (train fp st).artifact) d).2 = (predict fp (train fp st) d).2 := by
  rw [predict_snd, predict_snd]
  rfl

/-- C9: `get_categories` on a freshly constructed facade returns the fixed
five-element ordered list, no operation of the categorizer rewrites the
`categories` field, and `get_categories` always reports that field. -/
theorem C9_categories_immutable (fs : Option NBModel) (fp : List Char → List ℚ)
    (st : CategorizerState) (d : List Char) :
    get_categories (init fs) = ["Food", "Travel", "Bills", "Shopping", "Entertainment"]
    ∧ (train fp st).categories = st.categories
    ∧ (predict fp st d).1.categories = st.categories
    ∧ (predict_with_confidence fp st d).1.categories = st.categories
    ∧ get_categories st = st.categories :=
  ⟨rfl, rfl, ensureTrained_categories fp st, ensureTrained_categories fp st, rfl⟩

/-- C10: with a model present, `predict` and `predict_with_confidence` leave
the whole facade state — model and persisted artifact included — untouched;
with the model absent, every `predict` call, the empty-input and
keyword-matching ones included, installs the trained model and overwrites the
persisted artifact before any input check runs. -/
theorem C10_predict_frame (fp : List Char → List ℚ) (st : CategorizerState)
    (d : List Char) :
    (st.model.isSome →
      (predict fp st d).1 = st ∧ (predict_with_confidence fp st d).1 = st)
    ∧ (st.model = none →
      (predict fp st d).1.model = some (trainModel fp)
      ∧ (predict fp st d).1.artifact = some (trainModel fp)) := by
  constructor
  · intro h
    constructor
    · show ensureTrained fp st = st
      exact ensureTrained_of_some fp st h
    · show ensureTrained fp st = st
      exact ensureTrained_of_some fp st h
  · intro h
    have ht : ensureTrained fp st = train fp st := by simp [ensureTrained, h]
    constructor
    · show (ensureTrained fp st).model = _
      rw [ht]
      rfl
    · show (ensureTrained fp st).artifact = _
      rw [ht]
      rfl

/-- Witness for C10: a loaded facade is left unchanged by `predict`; a fresh
facade overwrites the artifact even on the empty description. -/
theorem C10_predict_frame_witness :
    ((predict (fun _ => []) (init (some (trainModel fun _ => []))) "tea".toList).1
        = init (some (trainModel fun _ => []))
      ∧ (predict_with_confidence (fun _ => []) (init (some (trainModel fun _ => [])))
          "tea".toList).1 = init (some (trainModel fun _ => [])))
    ∧ (predict (fun _ => []) (init none) "".toList).1.artifact
        = some (trainModel fun _ => []) :=
  ⟨(C10_predict_frame (fun _ => []) (init (some (trainModel fun _ => [])))
      "tea".toList).1 rfl,
    ((C10_predict_frame (fun _ => []) (init none) "".toList).2 rfl).2⟩

end ExpenseTracker
